import Mathlib

/-!
# Hooks of the NVIDIA Container Toolkit discoverer

A shallow embedding of `internal/discover/hooks.go`
(package `discover` of the vendored nvidia-container-toolkit):

* the `Hook` discoverer and its three methods,
* the builders `CreateNvidiaCTKHook` and `CreateCreateSymlinkHook`,
* the resolver `FindNvidiaCTK`.

Go strings are embedded as `String`, slices as `List` (a nil slice and a
zero-length slice are both `[]`, which is all that `len` and `range` can
tell apart), a Go `error` as `Option String` carrying the text of
`Error()`, with `none` for `nil`.  The only character the code looks at is
the slash, so reading a string as its characters or as its bytes gives the
same paths.

The logger is the state of a logger that exists (the pointer is not nil):
`FindNvidiaCTK` takes it and returns it with the entries it wrote.  The
locator built by `lookup.NewExecutableLocator` is a parameter, seen through
its method `Locate`; what it writes to the logger itself is left out.

The builders are embedded twice: as functions on lists, and once more over
slices held in memory (`CreateNvidiaCTKHookM`, `CreateCreateSymlinkHookM`),
where `append` writes into a backing array or allocates a new one; the
second embedding is shown to compute the first.
-/

namespace NvidiaCTK

/-! ## Collaborators from outside the package -/

/-- Unix `os.IsPathSeparator`: the only separator is the slash. -/
def IsPathSeparator (c : Char) : Bool := c == '/'

/-- Unix `filepath.IsAbs`: the path starts with a slash. -/
def IsAbs (path : String) : Bool :=
  match path.data with
  | c :: _ => c == '/'
  | [] => false

/-- First loop of `filepath.Base`: drop the trailing separators.  The
argument is the path read from its last character to its first. -/
def stripTrailing : List Char → List Char
  | [] => []
  | c :: cs => if IsPathSeparator c then stripTrailing cs else c :: cs

/-- Second loop of `filepath.Base`: walk back from the end to the last
separator and keep what is behind it.  The argument is the path read from
its last character to its first; so is the result. -/
def lastElement : List Char → List Char
  | [] => []
  | c :: cs => if IsPathSeparator c then [] else c :: lastElement cs

/-- Unix `filepath.Base`: the last element of the path.  Trailing slashes
are removed first; the empty path gives `"."`, a path of slashes only gives
`"/"`.  There is no volume name on Unix. -/
def Base (path : String) : String :=
  if path = "" then "."
  else
    let elem := (lastElement (stripTrailing path.data.reverse)).reverse
    if elem = [] then "/" else String.mk elem

/-- Hook name `cdi.CreateContainerHook` of the Container Device Interface. -/
def CreateContainerHook : String := "createContainer"

/-- Levels of a `logrus.Logger`, from `PanicLevel` (0) to `TraceLevel` (6). -/
def WarnLevel : Nat := 3

/-- Level `logrus.DebugLevel`. -/
def DebugLevel : Nat := 5

/-- State of a `logrus.Logger`: the level it is set to and the entries
written so far, oldest first, each with its level. -/
structure Logger where
  Level : Nat
  Out : List (Nat × String)
  deriving DecidableEq, Repr

/-- Method `Logger.Logf` after formatting: the entry is written when the
level is enabled. -/
def Logger.Logf (logger : Logger) (level : Nat) (msg : String) : Logger :=
  if logger.Level ≥ level then { logger with Out := logger.Out ++ [(level, msg)] }
  else logger

/-- Method `Logger.Debugf` after formatting. -/
def Logger.Debugf (logger : Logger) (msg : String) : Logger :=
  logger.Logf DebugLevel msg

/-- Method `Logger.Warnf` after formatting. -/
def Logger.Warnf (logger : Logger) (msg : String) : Logger :=
  logger.Logf WarnLevel msg

/-- Verb `%v` of `fmt` on a slice of strings: the elements between square
brackets, separated by one blank. -/
def fmtStrings (xs : List String) : String :=
  "[" ++ " ".intercalate xs ++ "]"

/-- The executable locator of package `lookup`, as `FindNvidiaCTK` sees it:
`Locate` maps a name to the candidates and the error. -/
structure Locator where
  Locate : String → List String × Option String

/-! ## Types of the package declared next to `hooks.go` -/

/-- Type `Device` of the package. -/
structure Device where
  HostPath : String
  Path : String
  deriving DecidableEq, Repr

/-- Type `Mount` of the package. -/
structure Mount where
  HostPath : String
  Path : String
  Options : List String
  deriving DecidableEq, Repr

/-- Type `Hook` of the package: a lifecycle hook to run. -/
structure Hook where
  Lifecycle : String
  Path : String
  Args : List String
  deriving DecidableEq, Repr

/-- Type `None` of the package: the discoverer with nothing to contribute. -/
structure None where
  deriving DecidableEq, Repr

/-- Interface `Discover`, as the sum of the dynamic types `hooks.go`
returns through it. -/
inductive Discover where
  | none (e : None)
  | hook (h : Hook)
  deriving DecidableEq, Repr

/-! ## hooks.go -/

/-- Constant `nvidiaCTKExecutable`. -/
def nvidiaCTKExecutable : String := "nvidia-ctk"

/-- Constant `nvidiaCTKDefaultFilePath`. -/
def nvidiaCTKDefaultFilePath : String := "/usr/bin/nvidia-ctk"

/-- Method `Hook.Devices`: an empty list of devices and no error. -/
def Hook.Devices (_h : Hook) : List Device × Option String := ([], none)

/-- Method `Hook.Mounts`: an empty list of mounts and no error. -/
def Hook.Mounts (_h : Hook) : List Mount × Option String := ([], none)

/-- Method `Hook.Hooks`: the hook itself, alone, and no error. -/
def Hook.Hooks (h : Hook) : List Hook × Option String := ([h], none)

/-- Modelled from the spec: method `None.Devices`, declared outside
`hooks.go`; the no-op variant returns an empty sequence and no error. -/
def None.Devices (_e : None) : List Device × Option String := ([], none)

/-- Modelled from the spec: method `None.Mounts`, declared outside
`hooks.go`; the no-op variant returns an empty sequence and no error. -/
def None.Mounts (_e : None) : List Mount × Option String := ([], none)

/-- Modelled from the spec: method `None.Hooks`, declared outside
`hooks.go`; the no-op variant returns an empty sequence and no error. -/
def None.Hooks (_e : None) : List Hook × Option String := ([], none)

/-- Dynamic dispatch of `Devices` through the interface. -/
def Discover.Devices : Discover → List Device × Option String
  | .none e => e.Devices
  | .hook h => h.Devices

/-- Dynamic dispatch of `Mounts` through the interface. -/
def Discover.Mounts : Discover → List Mount × Option String
  | .none e => e.Mounts
  | .hook h => h.Mounts

/-- Dynamic dispatch of `Hooks` through the interface. -/
def Discover.Hooks : Discover → List Hook × Option String
  | .none e => e.Hooks
  | .hook h => h.Hooks

/-- Function `CreateNvidiaCTKHook`: the hook that runs the `hook`
subcommand `hookName` of the executable at `nvidiaCTKPath`. -/
def CreateNvidiaCTKHook (nvidiaCTKPath : String) (hookName : String)
    (additionalArgs : List String) : Hook :=
  { Lifecycle := CreateContainerHook
    Path := nvidiaCTKPath
    Args := [Base nvidiaCTKPath, "hook", hookName] ++ additionalArgs }

/-- Function `CreateCreateSymlinkHook`: nothing for no links, otherwise the
`create-symlinks` hook with one `--link` flag per link.  The `range` loop
over `links` is the left fold. -/
def CreateCreateSymlinkHook (nvidiaCTKPath : String) (links : List String) : Discover :=
  if links.length = 0 then Discover.none {}
  else
    let args := links.foldl (fun args link => args ++ ["--link", link]) []
    Discover.hook (CreateNvidiaCTKHook nvidiaCTKPath "create-symlinks" args)

/-- Function `FindNvidiaCTK`: the path of the executable to use in hooks,
together with the logger after the call. -/
def FindNvidiaCTK (lookup : Locator) (logger : Logger) (nvidiaCTKPath : String) :
    String × Logger :=
  if IsAbs nvidiaCTKPath then
    let logger := logger.Debugf
      ("Using specified NVIDIA Container Toolkit CLI path " ++ nvidiaCTKPath)
    (nvidiaCTKPath, logger)
  else
    let nvidiaCTKPath := if nvidiaCTKPath = "" then nvidiaCTKExecutable else nvidiaCTKPath
    let logger := logger.Debugf
      ("Locating NVIDIA Container Toolkit CLI as " ++ nvidiaCTKPath)
    let hookPath := nvidiaCTKDefaultFilePath
    let (targets, err) := lookup.Locate nvidiaCTKPath
    let (hookPath, logger) :=
      match err with
      | some e => (hookPath, logger.Warnf ("Failed to locate " ++ nvidiaCTKPath ++ ": " ++ e))
      | none =>
        match targets with
        | [] => (hookPath, logger.Warnf (nvidiaCTKPath ++ " not found"))
        | t0 :: _ =>
          (t0, logger.Debugf
            ("Found " ++ nvidiaCTKPath ++ " candidates: " ++ fmtStrings targets))
    let logger := logger.Debugf ("Using NVIDIA Container Toolkit CLI path " ++ hookPath)
    (hookPath, logger)

/-- Name used in the statements below: what `FindNvidiaCTK` asks the
locator for, the input, or the default executable name when the input is
empty. -/
def effectiveName (nvidiaCTKPath : String) : String :=
  if nvidiaCTKPath = "" then nvidiaCTKExecutable else nvidiaCTKPath

/-- Function `FindNvidiaCTK` once more, with the index expression
`targets[0]` evaluated as Go does: an index out of range is a run-time
panic, here `none`.  The branches are those of the source: `err != nil`,
then `len(targets) == 0`, then the branch that indexes. -/
def FindNvidiaCTKIndexed (lookup : Locator) (logger : Logger) (nvidiaCTKPath : String) :
    Option (String × Logger) :=
  if IsAbs nvidiaCTKPath then
    let logger := logger.Debugf
      ("Using specified NVIDIA Container Toolkit CLI path " ++ nvidiaCTKPath)
    some (nvidiaCTKPath, logger)
  else
    let nvidiaCTKPath := if nvidiaCTKPath = "" then nvidiaCTKExecutable else nvidiaCTKPath
    let logger := logger.Debugf
      ("Locating NVIDIA Container Toolkit CLI as " ++ nvidiaCTKPath)
    let hookPath := nvidiaCTKDefaultFilePath
    let (targets, err) := lookup.Locate nvidiaCTKPath
    let branch : Option (String × Logger) :=
      match err with
      | some e =>
        some (hookPath, logger.Warnf ("Failed to locate " ++ nvidiaCTKPath ++ ": " ++ e))
      | none =>
        if targets.length = 0 then
          some (hookPath, logger.Warnf (nvidiaCTKPath ++ " not found"))
        else
          let logger := logger.Debugf
            ("Found " ++ nvidiaCTKPath ++ " candidates: " ++ fmtStrings targets)
          match targets[0]? with
          | some t0 => some (t0, logger)
          | none => none
    match branch with
    | some (hookPath, logger) =>
      some (hookPath, logger.Debugf ("Using NVIDIA Container Toolkit CLI path " ++ hookPath))
    | none => none

/-- Elements at the positions 1, 3, 5, ... of a list (counting from 0). -/
def oddPositions : List String → List String
  | _ :: x :: rest => x :: oddPositions rest
  | _ => []

/-- Links read back from a discoverer: none from the no-op discoverer,
otherwise the arguments at the positions 4, 6, 8, ... of the hook, which
are the odd positions of what follows the three leading tokens. -/
def linksOf : Discover → List String
  | .none _ => []
  | .hook h => oddPositions (h.Args.drop 3)

/-! ## The builders over slices in memory

The builders once more, with Go slices as windows on backing arrays held in
a memory, so that what a call allocates and writes is explicit. -/

/-- Go slice: a window on a backing array, given by the identifier of the
array, the position of the first element in it, the length and the
capacity. -/
structure Slice where
  array : Nat
  off : Nat
  len : Nat
  cap : Nat
  deriving DecidableEq, Repr

/-- Memory: the backing arrays allocated so far; the identifier of an array
is its position. -/
abbrev Memory := List (List String)

/-- The nil slice, the value of `var args []string`: length and capacity 0. -/
def nilSlice : Slice := ⟨0, 0, 0, 0⟩

/-- Elements of a slice, read from memory. -/
def elems (m : Memory) (s : Slice) : List String :=
  ((m.getD s.array []).drop s.off).take s.len

/-- Element `s[i]` as the `range` loop reads it, for `i` below the length. -/
def rangeElem (m : Memory) (s : Slice) (i : Nat) : String :=
  (m.getD s.array []).getD (s.off + i) ""

/-- A slice is valid in a memory when its length is within its capacity and
its capacity, unless it is 0, lies within an allocated array. -/
def Slice.valid (m : Memory) (s : Slice) : Prop :=
  s.len ≤ s.cap ∧
    (s.cap = 0 ∨ (s.array < m.length ∧ s.off + s.cap ≤ (m.getD s.array []).length))

instance (m : Memory) (s : Slice) : Decidable (s.valid m) := by
  unfold Slice.valid
  infer_instance

/-- Composite literal `[]string{...}`: a new array that holds exactly the
values, and the slice of all of it. -/
def makeSlice (m : Memory) (vals : List String) : Slice × Memory :=
  (⟨m.length, 0, vals.length, vals.length⟩, m ++ [vals])

/-- Array `a` with `vals` written from the position `pos` on. -/
def writeAt (a : List String) (pos : Nat) (vals : List String) : List String :=
  a.take pos ++ vals ++ a.drop (pos + vals.length)

/-- Built-in `append` of Go: when the capacity is large enough the values
are written into the backing array behind the slice, otherwise a new array
is allocated that holds the elements of the slice and the values.  How much
room the new array has beyond that is left to the implementation: `grow`
gives it from the old capacity and the length needed. -/
def sliceAppend (grow : Nat → Nat → Nat) (m : Memory) (s : Slice) (vals : List String) :
    Slice × Memory :=
  if s.len + vals.length ≤ s.cap then
    ({ s with len := s.len + vals.length },
      m.set s.array (writeAt (m.getD s.array []) (s.off + s.len) vals))
  else
    let spare := grow s.cap (s.len + vals.length)
    (⟨m.length, 0, s.len + vals.length, s.len + vals.length + spare⟩,
      m ++ [elems m s ++ vals ++ List.replicate spare ""])

/-- Type `Hook` with its arguments as a slice in memory. -/
structure HookM where
  Lifecycle : String
  Path : String
  Args : Slice
  deriving DecidableEq, Repr

/-- Function `CreateNvidiaCTKHook` over memory: the literal of the three
leading arguments is allocated, then the extra arguments are appended. -/
def CreateNvidiaCTKHookM (grow : Nat → Nat → Nat) (m : Memory)
    (nvidiaCTKPath : String) (hookName : String) (additionalArgs : Slice) : HookM × Memory :=
  let (lit, m) := makeSlice m [Base nvidiaCTKPath, "hook", hookName]
  let (args, m) := sliceAppend grow m lit (elems m additionalArgs)
  ({ Lifecycle := CreateContainerHook, Path := nvidiaCTKPath, Args := args }, m)

/-- Function `CreateCreateSymlinkHook` over memory: `none` is the no-op
discoverer.  The `range` loop runs over the positions below `len(links)`,
reads the link at each and appends to `args`, which starts as the nil
slice; `args...` hands that slice to the generic builder as it is. -/
def CreateCreateSymlinkHookM (grow : Nat → Nat → Nat) (m : Memory)
    (nvidiaCTKPath : String) (links : Slice) : Option HookM × Memory :=
  if links.len = 0 then (none, m)
  else
    let (args, m) := (List.range links.len).foldl
      (fun (st : Slice × Memory) i =>
        sliceAppend grow st.2 st.1 ["--link", rangeElem st.2 links i])
      (nilSlice, m)
    let (h, m) := CreateNvidiaCTKHookM grow m nvidiaCTKPath "create-symlinks" args
    (some h, m)

/-- The hook a hook in memory stands for: its arguments read from memory. -/
def HookM.view (m : Memory) (h : HookM) : Hook :=
  ⟨h.Lifecycle, h.Path, elems m h.Args⟩

/-- The discoverer a result of the symlink builder over memory stands for. -/
def viewDiscover (m : Memory) : Option HookM → Discover
  | none => Discover.none {}
  | some h => Discover.hook (h.view m)

/-- The hook the generic builder builds, read from the memory it leaves. -/
def builtHook (grow : Nat → Nat → Nat) (m : Memory) (nvidiaCTKPath : String)
    (hookName : String) (additionalArgs : Slice) : Hook :=
  (CreateNvidiaCTKHookM grow m nvidiaCTKPath hookName additionalArgs).1.view
    (CreateNvidiaCTKHookM grow m nvidiaCTKPath hookName additionalArgs).2

/-- The discoverer the symlink builder builds, read from the memory it
leaves. -/
def builtDiscover (grow : Nat → Nat → Nat) (m : Memory) (nvidiaCTKPath : String)
    (links : Slice) : Discover :=
  viewDiscover (CreateCreateSymlinkHookM grow m nvidiaCTKPath links).2
    (CreateCreateSymlinkHookM grow m nvidiaCTKPath links).1

/-! ## Shared lemmas -/

theorem IsAbs_ne_empty (path : String) (h : IsAbs path = true) : path ≠ "" := by
  intro he
  subst he
  simp [IsAbs] at h

theorem foldl_link_eq (links acc : List String) :
    links.foldl (fun args link => args ++ ["--link", link]) acc =
      acc ++ links.flatMap (fun link => ["--link", link]) := by
  induction links generalizing acc with
  | nil => simp
  | cons l ls ih => simp [List.foldl_cons, ih, List.flatMap_cons]

theorem FindNvidiaCTK_abs (lookup : Locator) (logger : Logger) (path : String)
    (h : IsAbs path = true) : (FindNvidiaCTK lookup logger path).1 = path := by
  simp [FindNvidiaCTK, h]

theorem FindNvidiaCTK_found (lookup : Locator) (logger : Logger) (name c1 : String)
    (rest : List String) (h : IsAbs name = false)
    (hloc : lookup.Locate (effectiveName name) = (c1 :: rest, none)) :
    (FindNvidiaCTK lookup logger name).1 = c1 := by
  simp only [effectiveName] at hloc
  simp [FindNvidiaCTK, h, hloc]

theorem FindNvidiaCTK_error (lookup : Locator) (logger : Logger) (name e : String)
    (targets : List String) (h : IsAbs name = false)
    (hloc : lookup.Locate (effectiveName name) = (targets, some e)) :
    (FindNvidiaCTK lookup logger name).1 = nvidiaCTKDefaultFilePath := by
  simp only [effectiveName] at hloc
  simp [FindNvidiaCTK, h, hloc]

theorem FindNvidiaCTK_empty (lookup : Locator) (logger : Logger) (name : String)
    (h : IsAbs name = false)
    (hloc : lookup.Locate (effectiveName name) = ([], none)) :
    (FindNvidiaCTK lookup logger name).1 = nvidiaCTKDefaultFilePath := by
  simp only [effectiveName] at hloc
  simp [FindNvidiaCTK, h, hloc]

theorem oddPositions_link (links : List String) :
    oddPositions (links.flatMap (fun link => ["--link", link])) = links := by
  induction links with
  | nil => rfl
  | cons l ls ih =>
    have h : (l :: ls).flatMap (fun link => ["--link", link]) =
        "--link" :: l :: ls.flatMap (fun link => ["--link", link]) := rfl
    rw [h, oddPositions, ih]

theorem length_link (links : List String) :
    (links.flatMap (fun link => ["--link", link])).length = 2 * links.length := by
  induction links with
  | nil => rfl
  | cons l ls ih =>
    simp only [List.flatMap_cons, List.length_append, List.length_cons, List.length_nil, ih]
    omega

theorem CreateCreateSymlinkHook_hook (p : String) (links : List String) (hl : links ≠ []) :
    CreateCreateSymlinkHook p links =
      Discover.hook (CreateNvidiaCTKHook p "create-symlinks"
        (links.flatMap (fun link => ["--link", link]))) := by
  have hlen : links.length ≠ 0 := fun h => hl (List.length_eq_zero.mp h)
  simp [CreateCreateSymlinkHook, hlen, foldl_link_eq]

theorem linksOf_CreateCreateSymlinkHook (p : String) (links : List String) :
    linksOf (CreateCreateSymlinkHook p links) = links := by
  cases links with
  | nil => rfl
  | cons l ls =>
    rw [CreateCreateSymlinkHook_hook p (l :: ls) (List.cons_ne_nil l ls)]
    simp only [linksOf, CreateNvidiaCTKHook, List.cons_append, List.nil_append, List.drop_succ_cons,
      List.drop_zero]
    exact oddPositions_link (l :: ls)

theorem link_getElem_at (links : List String) (i : Nat) :
    (links.flatMap (fun link => ["--link", link]))[2 * i + 1]? = links[i]? := by
  induction links generalizing i with
  | nil => simp
  | cons l ls ih =>
    have h : (l :: ls).flatMap (fun link => ["--link", link]) =
        "--link" :: l :: ls.flatMap (fun link => ["--link", link]) := rfl
    rw [h]
    cases i with
    | zero => simp
    | succ j =>
      have hj : 2 * (j + 1) + 1 = (2 * j + 1) + 1 + 1 := by omega
      rw [hj, List.getElem?_cons_succ, List.getElem?_cons_succ, List.getElem?_cons_succ]
      exact ih j

theorem CreateCreateSymlinkHook_link_at (p : String) (links : List String) (h : Hook)
    (hh : CreateCreateSymlinkHook p links = Discover.hook h) (i : Nat) :
    h.Args[4 + 2 * i]? = links[i]? := by
  cases links with
  | nil => simp [CreateCreateSymlinkHook] at hh
  | cons l ls =>
    rw [CreateCreateSymlinkHook_hook p (l :: ls) (List.cons_ne_nil l ls)] at hh
    have hh2 := Discover.hook.inj hh
    rw [← hh2]
    have hi : 4 + 2 * i = (2 * i + 1) + 1 + 1 + 1 := by omega
    simp only [CreateNvidiaCTKHook, List.cons_append, List.nil_append]
    rw [hi, List.getElem?_cons_succ, List.getElem?_cons_succ, List.getElem?_cons_succ]
    exact link_getElem_at (l :: ls) i

theorem FindNvidiaCTK_cases (lookup : Locator) (logger : Logger) (name : String) :
    (IsAbs name = true ∧ (FindNvidiaCTK lookup logger name).1 = name) ∨
      (IsAbs name = false ∧
        ((∃ rest, lookup.Locate (effectiveName name) =
            ((FindNvidiaCTK lookup logger name).1 :: rest, none)) ∨
          (((lookup.Locate (effectiveName name)).2 ≠ none ∨
              lookup.Locate (effectiveName name) = ([], none)) ∧
            (FindNvidiaCTK lookup logger name).1 = nvidiaCTKDefaultFilePath))) := by
  cases habs : IsAbs name with
  | true => exact Or.inl ⟨rfl, FindNvidiaCTK_abs lookup logger name habs⟩
  | false =>
    refine Or.inr ⟨rfl, ?_⟩
    rcases hres : lookup.Locate (effectiveName name) with ⟨targets, err⟩
    cases err with
    | some e =>
      exact Or.inr ⟨Or.inl (by simp), FindNvidiaCTK_error lookup logger name e targets habs hres⟩
    | none =>
      cases targets with
      | nil => exact Or.inr ⟨Or.inr rfl, FindNvidiaCTK_empty lookup logger name habs hres⟩
      | cons c rest =>
        rw [FindNvidiaCTK_found lookup logger name c rest habs hres]
        exact Or.inl ⟨rest, rfl⟩

/-! ## Shared lemmas on slices in memory -/

theorem elems_length (m : Memory) (s : Slice) (h : s.valid m) : (elems m s).length = s.len := by
  rcases h with ⟨hlen, hcap | ⟨_, hb⟩⟩
  · have : s.len = 0 := by omega
    simp [elems, this]
  · simp only [elems, List.length_take, List.length_drop]
    omega

theorem writeAt_length (a : List String) (pos : Nat) (vals : List String)
    (h : pos + vals.length ≤ a.length) : (writeAt a pos vals).length = a.length := by
  simp only [writeAt, List.length_append, List.length_take, List.length_drop]
  omega

theorem writeAt_elems (a : List String) (off len : Nat) (vals : List String)
    (h : off + len + vals.length ≤ a.length) :
    ((writeAt a (off + len) vals).drop off).take (len + vals.length) =
      (a.drop off).take len ++ vals := by
  have h1 : a.take (off + len) = a.take off ++ (a.drop off).take len := by
    rw [List.take_add]
  have hl1 : (a.take off).length = off := by
    rw [List.length_take]; omega
  have hl2 : ((a.drop off).take len).length = len := by
    rw [List.length_take, List.length_drop]; omega
  rw [writeAt, h1, List.append_assoc, List.append_assoc, List.drop_left' hl1,
    ← List.append_assoc, List.take_left']
  rw [List.length_append, hl2]

theorem writeAt_nil (a : List String) (pos : Nat) : writeAt a pos [] = a := by
  simp [writeAt]

theorem getD_set_other (m : Memory) (i j : Nat) (a : List String) (h : i ≠ j) :
    (m.set i a).getD j [] = m.getD j [] := by
  simp only [List.getD_eq_getElem?_getD, List.getElem?_set_ne h]

theorem getD_set_same (m : Memory) (i : Nat) (a : List String) (h : i < m.length) :
    (m.set i a).getD i [] = a := by
  simp only [List.getD_eq_getElem?_getD, List.getElem?_set_self h, Option.getD_some]

theorem getD_append_last (m : Memory) (a : List String) :
    (m ++ [a]).getD m.length [] = a := by
  rw [List.getD_append_right _ _ _ _ (Nat.le_refl _)]
  simp

theorem elems_append_old (m : Memory) (a : List String) (s : Slice) (h : s.valid m) :
    elems (m ++ [a]) s = elems m s := by
  rcases h with ⟨hlen, hcap | ⟨harr, _⟩⟩
  · have : s.len = 0 := by omega
    simp [elems, this]
  · simp only [elems, List.getD_append _ _ _ _ harr]

theorem valid_append_old (m : Memory) (a : List String) (s : Slice) (h : s.valid m) :
    s.valid (m ++ [a]) := by
  rcases h with ⟨hlen, hcap | ⟨harr, hb⟩⟩
  · exact ⟨hlen, Or.inl hcap⟩
  · refine ⟨hlen, Or.inr ⟨?_, ?_⟩⟩
    · rw [List.length_append]; omega
    · rw [List.getD_append _ _ _ _ harr]; exact hb

/-- What `append` does: the new slice holds the old elements followed by
the values and is valid; memory only grows; a slice that owns its array
(an array allocated at or after the mark `n`, or no array at all) still
does, and the arrays below the mark are left as they were. -/
theorem sliceAppend_spec (grow : Nat → Nat → Nat) (m : Memory) (s : Slice)
    (vals : List String) (n : Nat) (hv : s.valid m) (hn : n ≤ m.length)
    (hown : s.cap = 0 ∨ n ≤ s.array) :
    elems (sliceAppend grow m s vals).2 (sliceAppend grow m s vals).1 = elems m s ++ vals ∧
      (sliceAppend grow m s vals).1.valid (sliceAppend grow m s vals).2 ∧
      m.length ≤ (sliceAppend grow m s vals).2.length ∧
      ((sliceAppend grow m s vals).1.cap = 0 ∨ n ≤ (sliceAppend grow m s vals).1.array) ∧
      ∀ id < n, (sliceAppend grow m s vals).2.getD id [] = m.getD id [] := by
  by_cases hfit : s.len + vals.length ≤ s.cap
  · simp only [sliceAppend, hfit, if_true]
    by_cases hc : s.cap = 0
    · have hk : vals.length = 0 := by omega
      have hl : s.len = 0 := by omega
      have hvals : vals = [] := List.length_eq_zero.mp hk
      subst hvals
      refine ⟨by simp [elems, hl], ⟨by simp [hl, hc], Or.inl hc⟩, by simp, Or.inl hc, ?_⟩
      intro id _
      rw [writeAt_nil]
      by_cases hid : s.array = id
      · subst hid
        by_cases hlt : s.array < m.length
        · rw [getD_set_same m _ _ hlt]
        · rw [List.set_eq_of_length_le (Nat.le_of_not_lt hlt)]
      · rw [getD_set_other m _ _ _ hid]
    · rcases hv with ⟨hlen, hcap | ⟨harr, hb⟩⟩
      · exact absurd hcap hc
      · have hmark : n ≤ s.array := by
          rcases hown with h | h
          · exact absurd h hc
          · exact h
        refine ⟨?_, ⟨hfit, Or.inr ⟨by simpa using harr, ?_⟩⟩, by simp, Or.inr hmark, ?_⟩
        · simp only [elems]
          rw [getD_set_same m _ _ harr]
          exact writeAt_elems _ _ _ _ (by omega)
        · show s.off + s.cap ≤ ((m.set s.array _).getD s.array []).length
          rw [getD_set_same m _ _ harr, writeAt_length _ _ _ (by omega)]
          exact hb
        · intro id hid
          exact getD_set_other m _ _ _ (by omega)
  · simp only [sliceAppend, hfit, if_false]
    have hlen := elems_length m s hv
    refine ⟨?_, ⟨by simp, Or.inr ⟨by simp, ?_⟩⟩, by simp, Or.inr hn, ?_⟩
    · simp only [elems]
      rw [getD_append_last, List.drop_zero, List.append_assoc, ← List.append_assoc,
        List.take_left']
      rw [List.length_append]
      simp only [elems] at hlen
      omega
    · show 0 + _ ≤ ((m ++ [_]).getD m.length []).length
      rw [getD_append_last]
      simp only [List.length_append, List.length_replicate]
      omega
    · intro id hid
      exact List.getD_append _ _ _ _ (by omega)

theorem makeSlice_valid (m : Memory) (vals : List String) :
    (makeSlice m vals).1.valid (makeSlice m vals).2 ∧
      elems (makeSlice m vals).2 (makeSlice m vals).1 = vals := by
  refine ⟨⟨Nat.le_refl _, Or.inr ⟨by simp [makeSlice], ?_⟩⟩, ?_⟩
  · show 0 + vals.length ≤ ((m ++ [vals]).getD m.length []).length
    rw [getD_append_last]
    omega
  · show (((m ++ [vals]).getD m.length []).drop 0).take vals.length = vals
    rw [getD_append_last, List.drop_zero, List.take_length]

/-- The generic builder over memory: the hook it leaves in memory is the
hook of `CreateNvidiaCTKHook` for the elements of the extra arguments, its
arguments are a valid slice, memory only grows and the arrays that existed
before the call are left as they were. -/
theorem CreateNvidiaCTKHookM_spec (grow : Nat → Nat → Nat) (m : Memory) (p s : String)
    (xs : Slice) (hxs : xs.valid m) :
    (CreateNvidiaCTKHookM grow m p s xs).1.view (CreateNvidiaCTKHookM grow m p s xs).2 =
        CreateNvidiaCTKHook p s (elems m xs) ∧
      (CreateNvidiaCTKHookM grow m p s xs).1.Args.valid (CreateNvidiaCTKHookM grow m p s xs).2 ∧
      m.length ≤ (CreateNvidiaCTKHookM grow m p s xs).2.length ∧
      ∀ id < m.length, (CreateNvidiaCTKHookM grow m p s xs).2.getD id [] = m.getD id [] := by
  have hlit := makeSlice_valid m [Base p, "hook", s]
  have hspec := sliceAppend_spec grow (makeSlice m [Base p, "hook", s]).2
    (makeSlice m [Base p, "hook", s]).1
    (elems (makeSlice m [Base p, "hook", s]).2 xs) m.length hlit.1
    (by simp [makeSlice]) (Or.inr (Nat.le_refl _))
  have hold : elems (makeSlice m [Base p, "hook", s]).2 xs = elems m xs :=
    elems_append_old m _ xs hxs
  obtain ⟨h1, h2, h3, _, h5⟩ := hspec
  refine ⟨?_, h2, ?_, ?_⟩
  · show Hook.mk _ _ _ = Hook.mk _ _ _
    congr 1
    exact h1.trans (by rw [hlit.2, hold])
  · have : m.length ≤ (makeSlice m [Base p, "hook", s]).2.length := by simp [makeSlice]
    exact Nat.le_trans this h3
  · intro id hid
    exact (h5 id hid).trans (List.getD_append _ _ _ _ hid)

theorem rangeElem_eq (m : Memory) (s : Slice) (i : Nat) (hv : s.valid m) (hi : i < s.len) :
    (elems m s)[i]? = some (rangeElem m s i) := by
  rcases hv with ⟨hlen, hcap | ⟨_, hb⟩⟩
  · omega
  · simp only [elems, rangeElem, List.getElem?_take, hi, if_true, List.getElem?_drop]
    rw [List.getD_eq_getElem _ _ (by omega : s.off + i < (m.getD s.array []).length)]
    exact List.getElem?_eq_getElem _

/-- Invariant of the `range` loop of the symlink builder after `k` rounds:
`args` is a valid slice that owns its array and holds the flag and the link
for each of the first `k` links; memory has only grown and the arrays that
existed before the loop are left as they were. -/
theorem linkLoop_spec (grow : Nat → Nat → Nat) (m : Memory) (links : Slice)
    (hl : links.valid m) (k : Nat) (hk : k ≤ links.len) :
    let st := (List.range k).foldl
      (fun (st : Slice × Memory) i =>
        sliceAppend grow st.2 st.1 ["--link", rangeElem st.2 links i])
      (nilSlice, m)
    elems st.2 st.1 = ((elems m links).take k).flatMap (fun link => ["--link", link]) ∧
      st.1.valid st.2 ∧ m.length ≤ st.2.length ∧
      (st.1.cap = 0 ∨ m.length ≤ st.1.array) ∧
      ∀ id < m.length, st.2.getD id [] = m.getD id [] := by
  induction k with
  | zero =>
    refine ⟨by simp [elems, nilSlice], ⟨by simp [nilSlice], Or.inl rfl⟩, Nat.le_refl _,
      Or.inl rfl, fun _ _ => rfl⟩
  | succ k ih =>
    have ih := ih (by omega)
    simp only [List.range_succ, List.foldl_concat]
    simp only at ih
    generalize (List.range k).foldl
      (fun (st : Slice × Memory) i =>
        sliceAppend grow st.2 st.1 ["--link", rangeElem st.2 links i])
      (nilSlice, m) = st at ih ⊢
    obtain ⟨h1, h2, h3, h4, h5⟩ := ih
    have hspec := sliceAppend_spec grow st.2 st.1 ["--link", rangeElem st.2 links k]
      m.length h2 h3 h4
    obtain ⟨g1, g2, g3, g4, g5⟩ := hspec
    have hsame : rangeElem st.2 links k = rangeElem m links k := by
      rcases hl with ⟨hlen, hcap | ⟨harr, _⟩⟩
      · omega
      · simp only [rangeElem, h5 _ harr]
    refine ⟨?_, g2, Nat.le_trans h3 g3, g4, ?_⟩
    · rw [g1, h1, hsame, List.take_succ, rangeElem_eq m links k hl (by omega),
        List.flatMap_append]
      simp
    · intro id hid
      rw [g5 id hid, h5 id hid]

theorem elems_frame (m m2 : Memory) (s : Slice) (hv : s.valid m)
    (hlen : m.length ≤ m2.length) (hframe : ∀ id < m.length, m2.getD id [] = m.getD id []) :
    s.valid m2 ∧ elems m2 s = elems m s := by
  rcases hv with ⟨hl, hcap | ⟨harr, hb⟩⟩
  · have h0 : s.len = 0 := by omega
    exact ⟨⟨hl, Or.inl hcap⟩, by simp [elems, h0]⟩
  · refine ⟨⟨hl, Or.inr ⟨by omega, ?_⟩⟩, ?_⟩
    · rw [hframe _ harr]; exact hb
    · simp only [elems, hframe _ harr]

/-- The symlink builder over memory: the discoverer it leaves in memory is
the discoverer of `CreateCreateSymlinkHook` for the elements of `links`,
the arguments of its hook are a valid slice, memory only grows and the
arrays that existed before the call are left as they were. -/
theorem CreateCreateSymlinkHookM_spec (grow : Nat → Nat → Nat) (m : Memory) (p : String)
    (links : Slice) (hl : links.valid m) :
    builtDiscover grow m p links = CreateCreateSymlinkHook p (elems m links) ∧
      (∀ h, (CreateCreateSymlinkHookM grow m p links).1 = some h →
        h.Args.valid (CreateCreateSymlinkHookM grow m p links).2) ∧
      m.length ≤ (CreateCreateSymlinkHookM grow m p links).2.length ∧
      ∀ id < m.length, (CreateCreateSymlinkHookM grow m p links).2.getD id [] = m.getD id [] := by
  have hlen := elems_length m links hl
  by_cases h0 : links.len = 0
  · have hnil : elems m links = [] := List.length_eq_zero.mp (by omega)
    have hr : CreateCreateSymlinkHookM grow m p links = (none, m) := by
      simp only [CreateCreateSymlinkHookM, h0, if_true]
    rw [builtDiscover, hr, hnil]
    exact ⟨rfl, fun h hh => Option.noConfusion hh, Nat.le_refl _, fun _ _ => rfl⟩
  · have hne : elems m links ≠ [] := fun h => by rw [h] at hlen; simp at hlen; omega
    have hloop := linkLoop_spec grow m links hl links.len (Nat.le_refl _)
    simp only at hloop
    simp only [builtDiscover, CreateCreateSymlinkHookM, h0, if_false]
    generalize (List.range links.len).foldl
      (fun (st : Slice × Memory) i =>
        sliceAppend grow st.2 st.1 ["--link", rangeElem st.2 links i])
      (nilSlice, m) = st at hloop ⊢
    obtain ⟨h1, h2, h3, _, h5⟩ := hloop
    obtain ⟨g1, g2, g3, g4⟩ := CreateNvidiaCTKHookM_spec grow st.2 p "create-symlinks" st.1 h2
    rw [List.take_of_length_le (by omega)] at h1
    refine ⟨?_, ?_, Nat.le_trans h3 g3, ?_⟩
    · rw [CreateCreateSymlinkHook_hook p _ hne, ← h1, ← g1]
      rfl
    · intro h hh
      have : h = (CreateNvidiaCTKHookM grow st.2 p "create-symlinks" st.1).1 :=
        (Option.some.inj hh).symm
      rw [this]
      exact g2
    · intro id hid
      exact (g4 id (by omega)).trans (h5 id hid)

/-! ## The resolver -/

/-- C1: an absolute input path is returned exactly as given, whatever the
locator would answer (candidates, nothing, or an error) and whatever the
logger is. -/
theorem FindNvidiaCTK_absolute_unchanged (lookup : Locator) (logger : Logger) (P : String)
    (habs : IsAbs P = true) : (FindNvidiaCTK lookup logger P).1 = P :=
  FindNvidiaCTK_abs lookup logger P habs

theorem FindNvidiaCTK_absolute_unchanged_witness :
    IsAbs "/opt/nvidia/bin/nvidia-ctk" = true ∧
      (FindNvidiaCTK ⟨fun _ => (["/elsewhere/nvidia-ctk"], some "permission denied")⟩
        ⟨DebugLevel, []⟩ "/opt/nvidia/bin/nvidia-ctk").1 = "/opt/nvidia/bin/nvidia-ctk" :=
  ⟨by decide, FindNvidiaCTK_absolute_unchanged _ _ _ (by decide)⟩

/-- C2: for a non-absolute input, when the locator answers the effective
name with the candidates `c1 :: rest` and no error, the result is `c1`; a
locator that answers with the same first candidate and any other remaining
candidates gives the same result, so nothing is ranked or deduplicated. -/
theorem FindNvidiaCTK_first_candidate (lookup lookup2 : Locator) (logger : Logger)
    (name c1 : String) (rest rest2 : List String) (hrel : IsAbs name = false)
    (hloc : lookup.Locate (effectiveName name) = (c1 :: rest, none))
    (hloc2 : lookup2.Locate (effectiveName name) = (c1 :: rest2, none)) :
    (FindNvidiaCTK lookup logger name).1 = c1 ∧
      (FindNvidiaCTK lookup2 logger name).1 = (FindNvidiaCTK lookup logger name).1 := by
  rw [FindNvidiaCTK_found lookup logger name c1 rest hrel hloc,
    FindNvidiaCTK_found lookup2 logger name c1 rest2 hrel hloc2]
  exact ⟨rfl, rfl⟩

theorem FindNvidiaCTK_first_candidate_witness :
    IsAbs "" = false ∧
      (FindNvidiaCTK ⟨fun _ => (["/b/nvidia-ctk", "/a/nvidia-ctk", "/b/nvidia-ctk"], none)⟩
        ⟨DebugLevel, []⟩ "").1 = "/b/nvidia-ctk" ∧
      (FindNvidiaCTK ⟨fun _ => (["/b/nvidia-ctk"], none)⟩ ⟨DebugLevel, []⟩ "").1 =
        (FindNvidiaCTK ⟨fun _ => (["/b/nvidia-ctk", "/a/nvidia-ctk", "/b/nvidia-ctk"], none)⟩
          ⟨DebugLevel, []⟩ "").1 :=
  ⟨by decide,
    FindNvidiaCTK_first_candidate
      ⟨fun _ => (["/b/nvidia-ctk", "/a/nvidia-ctk", "/b/nvidia-ctk"], none)⟩
      ⟨fun _ => (["/b/nvidia-ctk"], none)⟩ ⟨DebugLevel, []⟩ "" "/b/nvidia-ctk"
      ["/a/nvidia-ctk", "/b/nvidia-ctk"] [] (by decide) rfl rfl⟩

/-- C3: for a non-absolute input, when the locator answers the effective
name with an error (whatever candidates come with it) or with no candidate
and no error, the result is the fixed fallback `/usr/bin/nvidia-ctk`; the
result is a plain path, the error does not reach the caller. -/
theorem FindNvidiaCTK_fallback (lookup : Locator) (logger : Logger) (name : String)
    (hrel : IsAbs name = false)
    (hloc : (lookup.Locate (effectiveName name)).2 ≠ none ∨
      lookup.Locate (effectiveName name) = ([], none)) :
    (FindNvidiaCTK lookup logger name).1 = "/usr/bin/nvidia-ctk" := by
  rcases hloc with herr | hempty
  · rcases hres : lookup.Locate (effectiveName name) with ⟨targets, err⟩
    rw [hres] at herr
    cases err with
    | none => exact absurd rfl herr
    | some e => exact FindNvidiaCTK_error lookup logger name e targets hrel hres
  · exact FindNvidiaCTK_empty lookup logger name hrel hempty

theorem FindNvidiaCTK_fallback_witness :
    IsAbs "bin/nvidia-ctk" = false ∧
      (FindNvidiaCTK ⟨fun _ => (["/opt/nvidia-ctk"], some "stat failed")⟩
        ⟨DebugLevel, []⟩ "bin/nvidia-ctk").1 = "/usr/bin/nvidia-ctk" :=
  ⟨by decide, FindNvidiaCTK_fallback _ _ _ (by decide) (Or.inl (by decide))⟩

/-- C4: the empty input behaves as the input `nvidia-ctk`: the returned
path and the logger after the call are the same; the name the locator is
asked for is `nvidia-ctk`: its answer for that name decides the result (the
first candidate when there is one and no error, the fallback otherwise),
and its answers for other names, the empty name included, change nothing. -/
theorem FindNvidiaCTK_empty_is_default (lookup : Locator) (logger : Logger) :
    FindNvidiaCTK lookup logger "" = FindNvidiaCTK lookup logger "nvidia-ctk" ∧
      FindNvidiaCTK lookup logger "" =
        FindNvidiaCTK ⟨fun _ => lookup.Locate "nvidia-ctk"⟩ logger "" ∧
      (FindNvidiaCTK lookup logger "").1 =
        (match lookup.Locate "nvidia-ctk" with
          | (_, some _) => "/usr/bin/nvidia-ctk"
          | ([], none) => "/usr/bin/nvidia-ctk"
          | (c :: _, none) => c) ∧
      (∀ c rest, lookup.Locate "nvidia-ctk" = (c :: rest, none) →
        (FindNvidiaCTK lookup logger "").1 = c ∧
          (FindNvidiaCTK lookup logger "nvidia-ctk").1 = c) := by
  have h1 : IsAbs "" = false := by decide
  have h2 : IsAbs "nvidia-ctk" = false := by decide
  have h3 : ("nvidia-ctk" : String) ≠ "" := by decide
  have he1 : effectiveName "" = "nvidia-ctk" := by decide
  have he2 : effectiveName "nvidia-ctk" = "nvidia-ctk" := by decide
  refine ⟨?_, ?_, ?_, ?_⟩
  · simp [FindNvidiaCTK, h1, h2, h3, nvidiaCTKExecutable]
  · simp [FindNvidiaCTK, h1, nvidiaCTKExecutable]
  · rcases hres : lookup.Locate "nvidia-ctk" with ⟨targets, err⟩
    cases err with
    | some e =>
      rw [FindNvidiaCTK_error lookup logger "" e targets h1 (he1 ▸ hres)]
      cases targets <;> rfl
    | none =>
      cases targets with
      | nil =>
        rw [FindNvidiaCTK_empty lookup logger "" h1 (he1 ▸ hres)]
        rfl
      | cons c rest =>
        rw [FindNvidiaCTK_found lookup logger "" c rest h1 (he1 ▸ hres)]
  · intro c rest hres
    exact ⟨FindNvidiaCTK_found lookup logger "" c rest h1 (he1 ▸ hres),
      FindNvidiaCTK_found lookup logger "nvidia-ctk" c rest h2 (he2 ▸ hres)⟩

theorem FindNvidiaCTK_empty_is_default_witness :
    (FindNvidiaCTK
        ⟨fun name => if name = "nvidia-ctk" then (["/opt/bin/nvidia-ctk"], none)
          else (["/opt/bin/other"], none)⟩
        ⟨DebugLevel, []⟩ "").1 = "/opt/bin/nvidia-ctk" ∧
      FindNvidiaCTK
          ⟨fun name => if name = "nvidia-ctk" then (["/opt/bin/nvidia-ctk"], none)
            else (["/opt/bin/other"], none)⟩
          ⟨DebugLevel, []⟩ "" =
        FindNvidiaCTK
          ⟨fun name => if name = "nvidia-ctk" then (["/opt/bin/nvidia-ctk"], none)
            else (["/opt/bin/other"], none)⟩
          ⟨DebugLevel, []⟩ "nvidia-ctk" :=
  ⟨((FindNvidiaCTK_empty_is_default
      ⟨fun name => if name = "nvidia-ctk" then (["/opt/bin/nvidia-ctk"], none)
        else (["/opt/bin/other"], none)⟩
      ⟨DebugLevel, []⟩).2.2.2 "/opt/bin/nvidia-ctk" [] (by decide)).1,
    (FindNvidiaCTK_empty_is_default
      ⟨fun name => if name = "nvidia-ctk" then (["/opt/bin/nvidia-ctk"], none)
        else (["/opt/bin/other"], none)⟩
      ⟨DebugLevel, []⟩).1⟩

/-! ## The builders and the discoverer methods -/

/-- C5: for a non-empty list of links the symlink builder gives one hook,
at the lifecycle create-container, whose path is the executable path and
whose arguments are the base name of the path, `hook`, `create-symlinks`,
then `--link` and the link for each link, in the order given, duplicates
kept; enumerating the hooks of the result gives that hook alone. -/
theorem CreateCreateSymlinkHook_args (p : String) (links : List String)
    (hl : links ≠ []) :
    CreateCreateSymlinkHook p links =
        Discover.hook ⟨"createContainer", p,
          [Base p, "hook", "create-symlinks"] ++
            links.flatMap (fun link => ["--link", link])⟩ ∧
      (CreateCreateSymlinkHook p links).Hooks =
        ([⟨"createContainer", p,
          [Base p, "hook", "create-symlinks"] ++
            links.flatMap (fun link => ["--link", link])⟩], none) := by
  have hlen : links.length ≠ 0 := fun h => hl (List.length_eq_zero.mp h)
  have hval : CreateCreateSymlinkHook p links =
      Discover.hook ⟨"createContainer", p,
        [Base p, "hook", "create-symlinks"] ++
          links.flatMap (fun link => ["--link", link])⟩ := by
    simp [CreateCreateSymlinkHook, hlen, CreateNvidiaCTKHook, CreateContainerHook,
      foldl_link_eq]
  refine ⟨hval, ?_⟩
  rw [hval]
  rfl

theorem CreateCreateSymlinkHook_args_witness :
    ["/a->/b", "/c->/d"] ≠ [] ∧
      CreateCreateSymlinkHook "/usr/bin/nvidia-ctk" ["/a->/b", "/c->/d"] =
        Discover.hook ⟨"createContainer", "/usr/bin/nvidia-ctk",
          ["nvidia-ctk", "hook", "create-symlinks", "--link", "/a->/b", "--link", "/c->/d"]⟩ ∧
      (CreateCreateSymlinkHook "/usr/bin/nvidia-ctk" ["/a->/b", "/c->/d"]).Hooks =
        ([⟨"createContainer", "/usr/bin/nvidia-ctk",
          ["nvidia-ctk", "hook", "create-symlinks", "--link", "/a->/b", "--link", "/c->/d"]⟩],
          none) :=
  ⟨by decide,
    CreateCreateSymlinkHook_args "/usr/bin/nvidia-ctk" ["/a->/b", "/c->/d"] (by decide)⟩

/-- C6: for an empty list of links the symlink builder gives the no-op
discoverer, whose devices, mounts and hooks are empty, each with no error;
no hook is produced. -/
theorem CreateCreateSymlinkHook_no_links (p : String) :
    CreateCreateSymlinkHook p [] = Discover.none {} ∧
      (CreateCreateSymlinkHook p []).Devices = ([], none) ∧
      (CreateCreateSymlinkHook p []).Mounts = ([], none) ∧
      (CreateCreateSymlinkHook p []).Hooks = ([], none) :=
  ⟨rfl, rfl, rfl, rfl⟩

/-- C7: the generic builder gives the hook at the lifecycle
create-container whose path is the executable path and whose arguments are
the base name of the path, `hook`, the subcommand, then the extra arguments
in order; the first argument is the base name of the path and the second
is `hook`. -/
theorem CreateNvidiaCTKHook_fields (p s : String) (xs : List String) :
    CreateNvidiaCTKHook p s xs = ⟨"createContainer", p, Base p :: "hook" :: s :: xs⟩ ∧
      (CreateNvidiaCTKHook p s xs).Args.take 3 =
        [Base (CreateNvidiaCTKHook p s xs).Path, "hook", s] ∧
      (CreateNvidiaCTKHook p s xs).Args.drop 3 = xs ∧
      (CreateNvidiaCTKHook p s xs).Args[0]? = some (Base (CreateNvidiaCTKHook p s xs).Path) ∧
      (CreateNvidiaCTKHook p s xs).Args[1]? = some "hook" :=
  ⟨rfl, rfl, rfl, rfl, rfl⟩

/-- C8: every hook, as a discoverer, has itself as its only hook, no
device and no mount, each returned with no error. -/
theorem Hook_discoverer (h : Hook) :
    h.Hooks = ([h], none) ∧ h.Devices = ([], none) ∧ h.Mounts = ([], none) ∧
      (Discover.hook h).Hooks = ([h], none) ∧ (Discover.hook h).Devices = ([], none) ∧
      (Discover.hook h).Mounts = ([], none) :=
  ⟨rfl, rfl, rfl, rfl, rfl, rfl⟩

/-! ## Non-empty paths -/

/-- C9: the resolver always returns a non-empty string: for every input
and every answer of the locator within its contract (the candidates it
returns for the effective name are absolute paths), be it an error, no
candidate or any sequence of candidates, the returned path is not the empty
string. -/
theorem FindNvidiaCTK_nonempty (lookup : Locator) (logger : Logger) (name : String)
    (hcontract : ∀ c ∈ (lookup.Locate (effectiveName name)).1, IsAbs c = true) :
    (FindNvidiaCTK lookup logger name).1 ≠ "" := by
  rcases FindNvidiaCTK_cases lookup logger name with ⟨ha, hr⟩ | ⟨_, ⟨rest, hr⟩ | ⟨_, hr⟩⟩
  · rw [hr]
    exact IsAbs_ne_empty name ha
  · apply IsAbs_ne_empty
    apply hcontract
    rw [hr]
    exact List.mem_cons_self _ _
  · rw [hr]
    decide

theorem FindNvidiaCTK_nonempty_witness :
    (∀ c ∈ ["/usr/local/bin/nvidia-ctk", "/usr/local/bin/nvidia-ctk", "/bin/nvidia-ctk"],
        IsAbs c = true) ∧
      (FindNvidiaCTK
        ⟨fun _ => (["/usr/local/bin/nvidia-ctk", "/usr/local/bin/nvidia-ctk", "/bin/nvidia-ctk"],
          none)⟩
        ⟨DebugLevel, []⟩ "").1 ≠ "" :=
  ⟨by decide,
    FindNvidiaCTK_nonempty
      ⟨fun _ => (["/usr/local/bin/nvidia-ctk", "/usr/local/bin/nvidia-ctk", "/bin/nvidia-ctk"],
        none)⟩
      ⟨DebugLevel, []⟩ "" (by decide)⟩

/-- C10, as stated, fails: the generic builder, given the empty string as
the executable path, gives a hook whose path is empty, and so does the
symlink builder for a non-empty list of links. -/
theorem CreateNvidiaCTKHook_empty_path :
    (CreateNvidiaCTKHook "" "create-symlinks" []).Path = "" ∧
      CreateCreateSymlinkHook "" ["/a->/b"] =
        Discover.hook
          ⟨"createContainer", "", [".", "hook", "create-symlinks", "--link", "/a->/b"]⟩ := by
  decide

/-- C10, amended: the path of a constructed hook is the executable path
given to the builder, unchanged; it is non-empty whenever that path is
non-empty, for the generic builder with any subcommand and extra arguments
and for the symlink builder with any non-empty list of links. -/
theorem hook_path_nonempty (p s : String) (xs links : List String)
    (hp : p ≠ "") (hl : links ≠ []) :
    (CreateNvidiaCTKHook p s xs).Path = p ∧ (CreateNvidiaCTKHook p s xs).Path ≠ "" ∧
      ∃ h, CreateCreateSymlinkHook p links = Discover.hook h ∧ h.Path = p ∧ h.Path ≠ "" := by
  refine ⟨rfl, hp, ?_⟩
  have hlen : links.length ≠ 0 := fun h => hl (List.length_eq_zero.mp h)
  refine ⟨CreateNvidiaCTKHook p "create-symlinks"
    (links.foldl (fun args link => args ++ ["--link", link]) []), ?_, rfl, hp⟩
  simp [CreateCreateSymlinkHook, hlen]

theorem hook_path_nonempty_witness :
    "/usr/bin/nvidia-ctk" ≠ "" ∧ ["/a->/b"] ≠ [] ∧
      (CreateNvidiaCTKHook "/usr/bin/nvidia-ctk" "update-ldcache" ["--folder", "/lib"]).Path =
        "/usr/bin/nvidia-ctk" ∧
      (CreateNvidiaCTKHook "/usr/bin/nvidia-ctk" "update-ldcache" ["--folder", "/lib"]).Path ≠ "" ∧
      ∃ h, CreateCreateSymlinkHook "/usr/bin/nvidia-ctk" ["/a->/b"] = Discover.hook h ∧
        h.Path = "/usr/bin/nvidia-ctk" ∧ h.Path ≠ "" :=
  ⟨by decide, by decide,
    hook_path_nonempty "/usr/bin/nvidia-ctk" "update-ldcache" ["--folder", "/lib"] ["/a->/b"]
      (by decide) (by decide)⟩

/-! ## Number of arguments, determinism -/

/-- C11: the arguments of a constructed hook are never empty: a hook of the
generic builder has 3 arguments plus the extra ones, so at least 3, and the
hook of the symlink builder for a non-empty list of n links has 3 + 2n
arguments. -/
theorem hook_args_length (p s : String) (xs links : List String) (hl : links ≠ []) :
    (CreateNvidiaCTKHook p s xs).Args.length = 3 + xs.length ∧
      3 ≤ (CreateNvidiaCTKHook p s xs).Args.length ∧
      (CreateNvidiaCTKHook p s xs).Args ≠ [] ∧
      ∃ h, CreateCreateSymlinkHook p links = Discover.hook h ∧
        h.Args.length = 3 + 2 * links.length ∧ h.Args ≠ [] := by
  have hlen : (CreateNvidiaCTKHook p s xs).Args.length = 3 + xs.length := by
    simp only [CreateNvidiaCTKHook, List.length_append, List.length_cons, List.length_nil]
  refine ⟨hlen, by omega, by simp [CreateNvidiaCTKHook], ?_⟩
  refine ⟨_, CreateCreateSymlinkHook_hook p links hl, ?_, by simp [CreateNvidiaCTKHook]⟩
  simp only [CreateNvidiaCTKHook, List.length_append, List.length_cons, List.length_nil,
    length_link]

theorem hook_args_length_witness :
    ["/a->/b", "/a->/b"] ≠ [] ∧
      (CreateNvidiaCTKHook "/usr/bin/nvidia-ctk" "chmod" ["--mode", "755"]).Args.length =
        3 + ["--mode", "755"].length ∧
      3 ≤ (CreateNvidiaCTKHook "/usr/bin/nvidia-ctk" "chmod" ["--mode", "755"]).Args.length ∧
      (CreateNvidiaCTKHook "/usr/bin/nvidia-ctk" "chmod" ["--mode", "755"]).Args ≠ [] ∧
      ∃ h, CreateCreateSymlinkHook "/usr/bin/nvidia-ctk" ["/a->/b", "/a->/b"] = Discover.hook h ∧
        h.Args.length = 3 + 2 * ["/a->/b", "/a->/b"].length ∧ h.Args ≠ [] :=
  ⟨by decide,
    hook_args_length "/usr/bin/nvidia-ctk" "chmod" ["--mode", "755"] ["/a->/b", "/a->/b"]
      (by decide)⟩

/-- C12: the builders are deterministic.  With slices held in memory, two
calls of a builder on equal arguments (the same path and subcommand, slices
with the same elements), from any two memories and with any two growth
policies of `append`, give structurally equal results: the same lifecycle,
the same path, the same arguments element by element.  So does a second
call made right after the first on the very same slices; the result is the
value of the pure builder at the elements; and a call leaves every array
that existed before it as it was. -/
theorem builders_deterministic (grow grow2 : Nat → Nat → Nat) (m m2 : Memory)
    (p s : String) (xs xs2 links links2 : Slice)
    (hxs : xs.valid m) (hxs2 : xs2.valid m2) (hlinks : links.valid m)
    (hlinks2 : links2.valid m2) (hsame : elems m xs = elems m2 xs2)
    (hsamel : elems m links = elems m2 links2) :
    builtHook grow m p s xs = builtHook grow2 m2 p s xs2 ∧
      builtDiscover grow m p links = builtDiscover grow2 m2 p links2 ∧
      builtHook grow (CreateNvidiaCTKHookM grow m p s xs).2 p s xs = builtHook grow m p s xs ∧
      builtDiscover grow (CreateCreateSymlinkHookM grow m p links).2 p links =
        builtDiscover grow m p links ∧
      builtHook grow m p s xs = CreateNvidiaCTKHook p s (elems m xs) ∧
      builtDiscover grow m p links = CreateCreateSymlinkHook p (elems m links) ∧
      (∀ id < m.length, (CreateNvidiaCTKHookM grow m p s xs).2.getD id [] = m.getD id []) ∧
      (∀ id < m.length,
        (CreateCreateSymlinkHookM grow m p links).2.getD id [] = m.getD id []) := by
  obtain ⟨a1, _, a3, a4⟩ := CreateNvidiaCTKHookM_spec grow m p s xs hxs
  obtain ⟨b1, _, _, _⟩ := CreateNvidiaCTKHookM_spec grow2 m2 p s xs2 hxs2
  obtain ⟨c1, _, c3, c4⟩ := CreateCreateSymlinkHookM_spec grow m p links hlinks
  obtain ⟨d1, _, _, _⟩ := CreateCreateSymlinkHookM_spec grow2 m2 p links2 hlinks2
  obtain ⟨e1, e2⟩ := elems_frame m _ xs hxs a3 a4
  obtain ⟨f1, f2⟩ := elems_frame m _ links hlinks c3 c4
  obtain ⟨a1', _, _, _⟩ := CreateNvidiaCTKHookM_spec grow _ p s xs e1
  obtain ⟨c1', _, _, _⟩ := CreateCreateSymlinkHookM_spec grow _ p links f1
  refine ⟨?_, ?_, ?_, ?_, a1, c1, a4, c4⟩
  · exact a1.trans (by rw [hsame]; exact b1.symm)
  · exact c1.trans (by rw [hsamel]; exact d1.symm)
  · exact a1'.trans (by rw [e2]; exact a1.symm)
  · exact c1'.trans (by rw [f2]; exact c1.symm)

theorem builders_deterministic_witness :
    Slice.valid [["junk", "--mode", "755"], ["/a->/b", "/a->/b", "spare"]] ⟨0, 1, 2, 2⟩ ∧
      Slice.valid [["/a->/b", "/a->/b"], [], ["--mode", "755", "spare"]] ⟨2, 0, 2, 3⟩ ∧
      Slice.valid [["junk", "--mode", "755"], ["/a->/b", "/a->/b", "spare"]] ⟨1, 0, 2, 3⟩ ∧
      Slice.valid [["/a->/b", "/a->/b"], [], ["--mode", "755", "spare"]] ⟨0, 0, 2, 2⟩ ∧
      builtHook (fun _ _ => 0) [["junk", "--mode", "755"], ["/a->/b", "/a->/b", "spare"]]
          "/usr/bin/nvidia-ctk" "chmod" ⟨0, 1, 2, 2⟩ =
        builtHook (fun _ n => n) [["/a->/b", "/a->/b"], [], ["--mode", "755", "spare"]]
          "/usr/bin/nvidia-ctk" "chmod" ⟨2, 0, 2, 3⟩ ∧
      builtDiscover (fun _ _ => 0) [["junk", "--mode", "755"], ["/a->/b", "/a->/b", "spare"]]
          "/usr/bin/nvidia-ctk" ⟨1, 0, 2, 3⟩ =
        builtDiscover (fun _ n => n) [["/a->/b", "/a->/b"], [], ["--mode", "755", "spare"]]
          "/usr/bin/nvidia-ctk" ⟨0, 0, 2, 2⟩ ∧
      (CreateNvidiaCTKHookM (fun _ _ => 0)
          [["junk", "--mode", "755"], ["/a->/b", "/a->/b", "spare"]]
          "/usr/bin/nvidia-ctk" "chmod" ⟨0, 1, 2, 2⟩).1.Args ≠
        (CreateNvidiaCTKHookM (fun _ n => n)
          [["/a->/b", "/a->/b"], [], ["--mode", "755", "spare"]]
          "/usr/bin/nvidia-ctk" "chmod" ⟨2, 0, 2, 3⟩).1.Args :=
  have h := builders_deterministic (fun _ _ => 0) (fun _ n => n)
    [["junk", "--mode", "755"], ["/a->/b", "/a->/b", "spare"]]
    [["/a->/b", "/a->/b"], [], ["--mode", "755", "spare"]]
    "/usr/bin/nvidia-ctk" "chmod" ⟨0, 1, 2, 2⟩ ⟨2, 0, 2, 3⟩ ⟨1, 0, 2, 3⟩ ⟨0, 0, 2, 2⟩
    (by decide) (by decide) (by decide) (by decide) (by decide) (by decide)
  ⟨by decide, by decide, by decide, by decide, h.1, h.2.1, by decide⟩

/-! ## The resolver: logger, absolute results, indexing -/

/-- C13: the diagnostics do not change the returned path: for the same
input and the same locator, two loggers, whatever their level and whatever
they hold already, give the same path. -/
theorem FindNvidiaCTK_logger_independent (lookup : Locator) (logger logger2 : Logger)
    (name : String) :
    (FindNvidiaCTK lookup logger name).1 = (FindNvidiaCTK lookup logger2 name).1 := by
  cases habs : IsAbs name with
  | true =>
    rw [FindNvidiaCTK_abs lookup logger name habs, FindNvidiaCTK_abs lookup logger2 name habs]
  | false =>
    rcases hres : lookup.Locate (effectiveName name) with ⟨targets, err⟩
    cases err with
    | some e =>
      rw [FindNvidiaCTK_error lookup logger name e targets habs hres,
        FindNvidiaCTK_error lookup logger2 name e targets habs hres]
    | none =>
      cases targets with
      | nil =>
        rw [FindNvidiaCTK_empty lookup logger name habs hres,
          FindNvidiaCTK_empty lookup logger2 name habs hres]
      | cons c rest =>
        rw [FindNvidiaCTK_found lookup logger name c rest habs hres,
          FindNvidiaCTK_found lookup logger2 name c rest habs hres]

/-- C14: when every candidate the locator returns for the effective name
is an absolute path, the resolver returns an absolute path for every input;
the result is the absolute input, or the first candidate returned with no
error, or `/usr/bin/nvidia-ctk`, and a relative input is never the result. -/
theorem FindNvidiaCTK_absolute_result (lookup : Locator) (logger : Logger) (name : String)
    (hcontract : ∀ c ∈ (lookup.Locate (effectiveName name)).1, IsAbs c = true) :
    IsAbs (FindNvidiaCTK lookup logger name).1 = true ∧
      ((IsAbs name = true ∧ (FindNvidiaCTK lookup logger name).1 = name) ∨
        (∃ rest, lookup.Locate (effectiveName name) =
          ((FindNvidiaCTK lookup logger name).1 :: rest, none)) ∨
        (FindNvidiaCTK lookup logger name).1 = "/usr/bin/nvidia-ctk") ∧
      (IsAbs name = false → (FindNvidiaCTK lookup logger name).1 ≠ name) := by
  have habsres : IsAbs (FindNvidiaCTK lookup logger name).1 = true := by
    rcases FindNvidiaCTK_cases lookup logger name with ⟨ha, hr⟩ | ⟨_, ⟨rest, hr⟩ | ⟨_, hr⟩⟩
    · rw [hr]; exact ha
    · apply hcontract
      rw [hr]
      exact List.mem_cons_self _ _
    · rw [hr]; decide
  refine ⟨habsres, ?_, ?_⟩
  · rcases FindNvidiaCTK_cases lookup logger name with h | ⟨_, h | ⟨_, hr⟩⟩
    · exact Or.inl h
    · exact Or.inr (Or.inl h)
    · exact Or.inr (Or.inr hr)
  · intro hrel heq
    rw [heq, hrel] at habsres
    exact Bool.noConfusion habsres

theorem FindNvidiaCTK_absolute_result_witness :
    (∀ c ∈ ["/usr/local/bin/nvidia-ctk", "/opt/bin/nvidia-ctk"], IsAbs c = true) ∧
      IsAbs (FindNvidiaCTK
        ⟨fun _ => (["/usr/local/bin/nvidia-ctk", "/opt/bin/nvidia-ctk"], none)⟩
        ⟨DebugLevel, []⟩ "bin/nvidia-ctk").1 = true ∧
      (FindNvidiaCTK
        ⟨fun _ => (["/usr/local/bin/nvidia-ctk", "/opt/bin/nvidia-ctk"], none)⟩
        ⟨DebugLevel, []⟩ "bin/nvidia-ctk").1 ≠ "bin/nvidia-ctk" :=
  ⟨by decide,
    (FindNvidiaCTK_absolute_result
      ⟨fun _ => (["/usr/local/bin/nvidia-ctk", "/opt/bin/nvidia-ctk"], none)⟩
      ⟨DebugLevel, []⟩ "bin/nvidia-ctk" (by decide)).1,
    (FindNvidiaCTK_absolute_result
      ⟨fun _ => (["/usr/local/bin/nvidia-ctk", "/opt/bin/nvidia-ctk"], none)⟩
      ⟨DebugLevel, []⟩ "bin/nvidia-ctk" (by decide)).2.2 (by decide)⟩

/-- C15: the resolver never indexes out of range: with `targets[0]`
evaluated as an index that can fail, the function still returns a value
for every input, every logger and every answer of the locator (an error or
not, candidates or none), and that value is the one of `FindNvidiaCTK`. -/
theorem FindNvidiaCTKIndexed_total (lookup : Locator) (logger : Logger) (name : String) :
    FindNvidiaCTKIndexed lookup logger name = some (FindNvidiaCTK lookup logger name) := by
  cases habs : IsAbs name with
  | true => simp [FindNvidiaCTKIndexed, FindNvidiaCTK, habs]
  | false =>
    rcases hres : lookup.Locate (if name = "" then nvidiaCTKExecutable else name) with
      ⟨targets, err⟩
    cases err with
    | some e => simp [FindNvidiaCTKIndexed, FindNvidiaCTK, habs, hres]
    | none =>
      cases targets with
      | nil => simp [FindNvidiaCTKIndexed, FindNvidiaCTK, habs, hres]
      | cons c rest => simp [FindNvidiaCTKIndexed, FindNvidiaCTK, habs, hres]

/-! ## Reading the links back -/

/-- C16: for a fixed executable path the symlink builder is injective in
its list of links: the list is read back from the result (nothing from the
no-op discoverer, otherwise the arguments at the positions 4, 6, 8, ...,
where the argument at the position 4 + 2i is the link number i), so two
different lists of links never give equal discoverers. -/
theorem CreateCreateSymlinkHook_injective (p : String) (links links2 : List String)
    (hne : links ≠ links2) :
    linksOf (CreateCreateSymlinkHook p links) = links ∧
      linksOf (CreateCreateSymlinkHook p links2) = links2 ∧
      (∀ h, CreateCreateSymlinkHook p links = Discover.hook h →
        ∀ i : Nat, h.Args[4 + 2 * i]? = links[i]?) ∧
      CreateCreateSymlinkHook p links ≠ CreateCreateSymlinkHook p links2 := by
  refine ⟨linksOf_CreateCreateSymlinkHook p links, linksOf_CreateCreateSymlinkHook p links2,
    fun h hh i => CreateCreateSymlinkHook_link_at p links h hh i, ?_⟩
  intro heq
  apply hne
  rw [← linksOf_CreateCreateSymlinkHook p links, heq, linksOf_CreateCreateSymlinkHook p links2]

theorem CreateCreateSymlinkHook_injective_witness :
    ["--link", ""] ≠ ["", "--link"] ∧
      linksOf (CreateCreateSymlinkHook "/usr/bin/nvidia-ctk" ["--link", ""]) = ["--link", ""] ∧
      linksOf (CreateCreateSymlinkHook "/usr/bin/nvidia-ctk" ["", "--link"]) = ["", "--link"] ∧
      (∀ h, CreateCreateSymlinkHook "/usr/bin/nvidia-ctk" ["--link", ""] = Discover.hook h →
        ∀ i : Nat, h.Args[4 + 2 * i]? = ["--link", ""][i]?) ∧
      CreateCreateSymlinkHook "/usr/bin/nvidia-ctk" ["--link", ""] ≠
        CreateCreateSymlinkHook "/usr/bin/nvidia-ctk" ["", "--link"] :=
  ⟨by decide,
    CreateCreateSymlinkHook_injective "/usr/bin/nvidia-ctk" ["--link", ""] ["", "--link"]
      (by decide)⟩

end NvidiaCTK
